import Mathlib

/-!
Shallow embedding of the newsletter-generator pipeline (src/app.py):
row enrichment by page scraping, image resolution (remote URL / data URI /
opaque passthrough), per-row package rendering, and regex-based inlining of
local `src` references as data URIs.

Strings are modelled as Lean `String`s (lists of characters); Python dicts
(CSV rows) as ordered association lists; the file system and the network as
explicit oracle functions; Python exceptions as `Except` / `Option` results.
-/

namespace NewsGen

/-! ### Character and string helpers (Python `str` / `os.path` fragments) -/

/-- The double-quote character. -/
def dquote : Char := Char.ofNat 34

/-- The single-quote character. -/
def squote : Char := Char.ofNat 39

/-- The newline character. -/
def nlChar : Char := Char.ofNat 10

/-- A one-character string holding a double quote. -/
def dquoteS : String := String.mk [dquote]

/-- Python slicing `s[:n]`: the first `n` characters of `s`. -/
def pyTake (n : Nat) (s : String) : String := String.mk (s.data.take n)

/-- Boolean prefix test on character lists. -/
def isPre : List Char → List Char → Bool
  | [], _ => true
  | _ :: _, [] => false
  | a :: as, b :: bs => a == b && isPre as bs

/-- Python `s.startswith(p)`. -/
def strStartsWith (s p : String) : Bool := isPre p.data s.data

/-- Split at the first occurrence of `sep` (Python `s.split(sep, 1)` when it
succeeds); `none` when `sep` does not occur. -/
def splitFirst (sep : Char) : List Char → Option (List Char × List Char)
  | [] => none
  | c :: cs =>
    if c == sep then some ([], cs)
    else (splitFirst sep cs).map (fun p => (c :: p.1, p.2))

/-- The characters before the first occurrence of `sep` (the whole list when
`sep` does not occur): Python `s.split(sep)[0]`. -/
def takeUntil (sep : Char) : List Char → List Char
  | [] => []
  | c :: cs => if c == sep then [] else c :: takeUntil sep cs

/-- Python `s.split(sep)[1]`: the segment between the first and second
occurrence of `sep`; `none` (Python `IndexError`) when `sep` does not occur. -/
def splitIdx1 (sep : Char) (cs : List Char) : Option (List Char) :=
  (splitFirst sep cs).map (fun p => takeUntil sep p.2)

/-- Split at the last occurrence of `sep`: `some (before, after)`, or `none`
when `sep` does not occur. -/
def splitLastChar (sep : Char) : List Char → Option (List Char × List Char)
  | [] => none
  | c :: cs =>
    match splitLastChar sep cs with
    | some (pre, post) => some (c :: pre, post)
    | none => if c == sep then some ([], cs) else none

/-- Python `os.path.basename`: the part after the last `/`. -/
def basenameChars (cs : List Char) : List Char :=
  match splitLastChar '/' cs with
  | some (_, post) => post
  | none => cs

/-- Python `os.path.basename` on strings. -/
def basename (s : String) : String := String.mk (basenameChars s.data)

/-- The extension (without the dot) that `os.path.splitext` assigns to a path:
taken after the last dot of the basename, empty when the only dots are leading
dots of the basename. -/
def extOf (p : String) : String :=
  match splitLastChar '.' (basenameChars p.data) with
  | some (pre, post) => if pre.any (fun c => c != '.') then String.mk post else ""
  | none => ""

/-- Python `os.path.join(a, b)` restricted to the shapes the program uses:
an absolute second component wins, otherwise the components are joined
with a `/`. -/
def pathJoin (a b : String) : String :=
  if strStartsWith b "/" then b else a ++ "/" ++ b

/-- Python `s.lower()` on character lists (ASCII is all the program needs). -/
def lowerChars (cs : List Char) : List Char := cs.map Char.toLower

/-! ### Base64 (Python `base64.b64encode` / `b64decode`) -/

/-- Value of a base64 alphabet character. -/
def b64CharVal (c : Char) : Option Nat :=
  if 'A' ≤ c ∧ c ≤ 'Z' then some (c.toNat - 'A'.toNat)
  else if 'a' ≤ c ∧ c ≤ 'z' then some (c.toNat - 'a'.toNat + 26)
  else if '0' ≤ c ∧ c ≤ '9' then some (c.toNat - '0'.toNat + 52)
  else if c == '+' then some 62
  else if c == '/' then some 63
  else none

/-- Base64 alphabet character for a 6-bit value. -/
def b64Char (n : Nat) : Char :=
  if n < 26 then Char.ofNat ('A'.toNat + n)
  else if n < 52 then Char.ofNat ('a'.toNat + (n - 26))
  else if n < 62 then Char.ofNat ('0'.toNat + (n - 52))
  else if n = 62 then '+'
  else '/'

/-- Decode base64 in groups of four characters (padding only at the end). -/
def b64Groups : List Char → Option (List Nat)
  | [] => some []
  | a :: b :: c :: d :: rest =>
    match b64CharVal a, b64CharVal b with
    | some va, some vb =>
      if c == '=' && d == '=' && rest.isEmpty then
        some [va * 4 + vb / 16]
      else
        match b64CharVal c with
        | some vc =>
          if d == '=' && rest.isEmpty then
            some [va * 4 + vb / 16, (vb % 16) * 16 + vc / 4]
          else
            match b64CharVal d with
            | some vd =>
              (b64Groups rest).map
                (fun bs => (va * 4 + vb / 16) :: ((vb % 16) * 16 + vc / 4) ::
                  ((vc % 4) * 64 + vd) :: bs)
            | none => none
        | none => none
    | _, _ => none
  | _ => none

/-- Python `base64.b64decode`: characters outside the alphabet (other than
`=`) are discarded, then the groups of four are decoded; `none` models the
`binascii.Error` raised on malformed padding. -/
def b64decode (s : String) : Option (List Nat) :=
  b64Groups (s.data.filter (fun c => (b64CharVal c).isSome || c == '='))

/-- Python `base64.b64encode` on a list of bytes, as characters. -/
def b64encodeChars : List Nat → List Char
  | [] => []
  | [a] => [b64Char (a / 4), b64Char (a % 4 * 16), '=', '=']
  | [a, b] => [b64Char (a / 4), b64Char (a % 4 * 16 + b / 16),
      b64Char (b % 16 * 4), '=']
  | a :: b :: c :: rest =>
    b64Char (a / 4) :: b64Char (a % 4 * 16 + b / 16) ::
      b64Char (b % 16 * 4 + c / 64) :: b64Char (c % 64) :: b64encodeChars rest

/-- Python `base64.b64encode(...).decode()`. -/
def b64encode (bs : List Nat) : String := String.mk (b64encodeChars bs)

/-! ### CSV rows (Python `dict` from `csv.DictReader`) -/

/-- A CSV row: an insertion-ordered mapping from column names to values,
as produced by `csv.DictReader`. -/
def Row := List (String × String)

instance : DecidableEq Row := by
  unfold Row
  exact inferInstance

/-- Python `row[k]` as a total lookup: `some` value or `none` when absent. -/
def getV (r : Row) (k : String) : Option String :=
  (r.find? (fun p => p.1 == k)).map (fun p => p.2)

/-- Python `row[k] = v`: update in place when the key exists (keeping its
position), append otherwise. -/
def setV : Row → String → String → Row
  | [], k, v => [(k, v)]
  | (k', v') :: rest, k, v =>
    if k' == k then (k, v) :: rest else (k', v') :: setV rest k v

/-! ### Scraped fields and the HTML document model -/

/-- Result of scraping one page (`scrap_page`): the dict
`{"title": _, "img": _, "lead": _}`. -/
structure ScrapedFields where
  title : String
  img : String
  lead : String
deriving Repr, DecidableEq

/-- A parsed HTML node, as BeautifulSoup sees it: an element with a tag name,
its (multi-valued) `class` attribute, its other attributes and its children,
or a text node. -/
inductive Node where
  | elem (tag : String) (classes : List String) (attrs : List (String × String))
      (children : List Node)
  | text (s : String)
deriving Repr

mutual

/-- The descendant text nodes of a node, in document order. -/
def nodeTexts : Node → List String
  | .text s => [s]
  | .elem _ _ _ children => nodesTexts children

/-- The descendant text nodes of a forest, in document order. -/
def nodesTexts : List Node → List String
  | [] => []
  | n :: ns => nodeTexts n ++ nodesTexts ns

end

/-- BeautifulSoup `get_text(separator=sep, strip=True)`: each text bit is
stripped, whitespace-only bits are dropped, and the rest are joined by
`sep`. -/
def getTextStrip (sep : String) (n : Node) : String :=
  String.intercalate sep
    (((nodeTexts n).map (fun s => s.trim)).filter (fun s => s != ""))

/-- Attribute lookup with a default: BeautifulSoup `tag.get(k, d)`. -/
def getAttrD (attrs : List (String × String)) (k d : String) : String :=
  match (attrs.find? (fun p => p.1 == k)).map (fun p => p.2) with
  | some v => v
  | none => d

mutual

/-- `soup.find(t)`: the first element with tag `t`, in pre-order
(document order). -/
def findTagNode (t : String) : Node → Option Node
  | .text _ => none
  | .elem tag classes attrs children =>
    if tag == t then some (.elem tag classes attrs children)
    else findTagNodes t children

/-- `soup.find(t)` over a forest, in document order. -/
def findTagNodes (t : String) : List Node → Option Node
  | [] => none
  | n :: ns =>
    match findTagNode t n with
    | some r => some r
    | none => findTagNodes t ns

end

mutual

/-- `soup.select_one("div.<c>")`: the first `div` element carrying class `c`,
in document order. -/
def findDivClassNode (c : String) : Node → Option Node
  | .text _ => none
  | .elem tag classes attrs children =>
    if tag == "div" && classes.contains c then
      some (.elem tag classes attrs children)
    else findDivClassNodes c children

/-- `soup.select_one("div.<c>")` over a forest. -/
def findDivClassNodes (c : String) : List Node → Option Node
  | [] => none
  | n :: ns =>
    match findDivClassNode c n with
    | some r => some r
    | none => findDivClassNodes c ns

end

mutual

/-- `soup.select_one("div.entry-image > img")`: the first `img` element, in
document order, whose parent is a `div` with class `entry-image`; the flag
records whether the current node's parent matched. -/
def findWrappedImg (parentMatches : Bool) : Node → Option Node
  | .text _ => none
  | .elem tag classes attrs children =>
    if parentMatches && tag == "img" then
      some (.elem tag classes attrs children)
    else
      findWrappedImgs (tag == "div" && classes.contains "entry-image") children

/-- `div.entry-image > img` search over a forest of siblings. -/
def findWrappedImgs (parentMatches : Bool) : List Node → Option Node
  | [] => none
  | n :: ns =>
    match findWrappedImg parentMatches n with
    | some r => some r
    | none => findWrappedImgs parentMatches ns

end

/-! ### Page scraping (`scrap_page`) and row enrichment (`process_scrape_csv`) -/

/-- The raw lead text of a page: the stripped text of the first
`div.entry-lead`, else the space-joined stripped text of the first
`div.article__content`, else empty (`scrap_page`, lead part, before
truncation). -/
def leadTextOf (page : List Node) : String :=
  match findDivClassNodes "entry-lead" page with
  | some n => getTextStrip "" n
  | none =>
    match findDivClassNodes "article__content" page with
    | some n => getTextStrip " " n
    | none => ""

/-- `scrap_page(url)`. The argument is the outcome of
`requests.get(url, timeout=10)` + `raise_for_status()` + parsing: `.error`
for any network failure, timeout, non-2xx status or parse failure (all of
which raise and are caught by the function's `except` branch), `.ok` with
the parsed document otherwise. -/
def scrap_page (fetched : Except String (List Node)) : ScrapedFields :=
  match fetched with
  | .error _ => { title := "", img := "", lead := "" }
  | .ok page =>
    let title :=
      match findTagNodes "h1" page with
      | some h1 => getTextStrip "" h1
      | none => ""
    let img :=
      match findWrappedImgs false page with
      | some (.elem _ _ attrs _) => getAttrD attrs "src" ""
      | some (.text _) => ""
      | none => ""
    { title := title, img := img, lead := pyTake 150 (leadTextOf page) }

/-- Whether `scrap_page` signals a recoverable warning (`st.error` in its
`except` branch). -/
def scrap_warns (fetched : Except String (List Node)) : Bool :=
  match fetched with
  | .error _ => true
  | .ok _ => false

/-- The raw (untruncated) lead text for a fetch outcome. -/
def pageLeadRaw (fetched : Except String (List Node)) : String :=
  match fetched with
  | .error _ => ""
  | .ok page => leadTextOf page

/-- One URL-column block of `process_scrape_csv`: for column `col` (with
derived columns `tcol`/`icol`/`lcol`), scrape when the column is present and
non-empty; otherwise re-assign `row[col] = row[col]` (which raises `KeyError`
when the column is absent) and set the three derived columns to empty
strings. `scrape` is the behaviour of `scrap_page` on each URL. -/
def enrichUrlCol (scrape : String → ScrapedFields) (col tcol icol lcol : String)
    (row : Row) : Except String Row :=
  match getV row col with
  | some v =>
    if v != "" then
      let d := scrape v
      .ok (setV (setV (setV (setV row col v) tcol d.title) icol d.img) lcol d.lead)
    else
      .ok (setV (setV (setV (setV row col v) tcol "") icol "") lcol "")
  | none => .error ("KeyError: " ++ col)

/-- The per-row body of `process_scrape_csv`: the `url1` block followed by
the `url2` block. -/
def enrichRow (scrape : String → ScrapedFields) (row : Row) : Except String Row := do
  let r1 ← enrichUrlCol scrape "url1" "title1" "img1" "lead1" row
  enrichUrlCol scrape "url2" "title2" "img2" "lead2" r1

/-- `process_scrape_csv` after CSV parsing: enrich every row in order; the
first uncaught exception aborts the whole loop. -/
def process_scrape_csv (scrape : String → ScrapedFields) (rows : List Row) :
    Except String (List Row) :=
  rows.mapM (enrichRow scrape)

/-! ### Image resolution -/

/-- `embed_image_as_data_uri(image_path)`: `fs` is the file system (path to
file bytes). Missing file yields `""`; the MIME type is derived from the
lower-cased path extension, with `svg` mapped to `image/svg+xml`. -/
def embed_image_as_data_uri (fs : String → Option (List Nat)) (image_path : String) :
    String :=
  match fs image_path with
  | none => ""
  | some data =>
    let ext := String.mk (lowerChars (extOf image_path).data)
    let mime := if ext = "svg" then "image/svg+xml" else "image/" ++ ext
    "data:" ++ mime ++ ";base64," ++ b64encode data

/-- `download_image(image_url, dest_folder)`: `fetch` is the network (URL to
bytes, `none` for any failure). Returns the path the code returns (`none` on
failure, the URL itself when it is already a data URI) together with the
files written into the destination folder as `(filename, bytes)` pairs. -/
def download_image (fetch : String → Option (List Nat)) (image_url dest_folder : String) :
    Option String × List (String × List Nat) :=
  if image_url = "" then (none, [])
  else if strStartsWith image_url "data:" then (some image_url, [])
  else
    match fetch image_url with
    | some content =>
      let filename := basename (String.mk (takeUntil '?' image_url.data))
      (some (pathJoin dest_folder filename), [(filename, content)])
    | none => (none, [])

/-- `save_data_uri_as_file(data_uri, dest_folder, default_filename)`:
parses the `data:<mime>;base64,<payload>` header, derives the extension from
the MIME subtype, decodes the payload, and returns
`(dest_path, filename, bytes)`; `none` models every caught exception
(missing comma, missing `/` in the MIME type, undecodable payload) and the
non-`data:` early return. -/
def save_data_uri_as_file (data_uri dest_folder default_filename : String) :
    Option (String × String × List Nat) :=
  if !strStartsWith data_uri "data:" then none
  else
    match splitFirst ',' data_uri.data with
    | none => none
    | some (headerCs, b64data) =>
      let mime_part := takeUntil ';' headerCs
      match splitIdx1 ':' mime_part with
      | none => none
      | some mime_type =>
        match splitIdx1 '/' mime_type with
        | none => none
        | some ext =>
          let filename := default_filename ++ "." ++ String.mk ext
          match b64decode (String.mk b64data) with
          | none => none
          | some bytes => some (pathJoin dest_folder filename, filename, bytes)

/-- The declared MIME type of a data URI, read the way
`save_data_uri_as_file` reads it: the segment between the first `:` and the
following `;` (or `,`-terminated header end). -/
def declaredMime (uri : String) : Option String :=
  if !strStartsWith uri "data:" then none
  else
    match splitFirst ',' uri.data with
    | none => none
    | some (headerCs, _) => (splitIdx1 ':' (takeUntil ';' headerCs)).map String.mk

/-- Saving a well-formed data URI to disk and re-embedding the written file
as a data URI (`save_data_uri_as_file` then `embed_image_as_data_uri` on a
file system holding exactly the written file). -/
def save_then_embed (data_uri dest_folder default_filename : String) : Option String :=
  match save_data_uri_as_file data_uri dest_folder default_filename with
  | none => none
  | some (path, _, bytes) =>
    some (embed_image_as_data_uri (fun p => if p = path then some bytes else none) path)

/-! ### Package rendering (`process_csv`) -/

/-- The hard-coded output workspace. -/
def OUTPUT_FOLDER : String := "generated_mails"

/-- Package identifier choice (`process_csv`, head of the loop body): the
value of the naming column when the naming variable is given (truthy),
present in the row and non-empty; otherwise the 1-based row index as a
string. -/
def package_identifier (naming : Option String) (idx : Nat) (row : Row) : String :=
  match naming with
  | some nv =>
    if nv != "" then
      match getV row nv with
      | some v => if v != "" then v else toString idx
      | none => toString idx
    else toString idx
  | none => toString idx

/-- One dynamic-image column step of `process_csv`: dispatch on the value's
leading characters (`http` → download, `data:` → decode and save, anything
else → leave unchanged). Returns the updated row and the files written into
the package folder. -/
def resolveImageValue (fetch : String → Option (List Nat)) (folder col : String)
    (row : Row) : Row × List (String × List Nat) :=
  match getV row col with
  | some v =>
    if v != "" then
      if strStartsWith v "http" then
        match download_image fetch v folder with
        | (some p, fls) => (setV row col (basename p), fls)
        | (none, fls) => (setV row col v, fls)
      else if strStartsWith v "data:" then
        match save_data_uri_as_file v folder col with
        | some (p, fname, bytes) => (setV row col (basename p), [(fname, bytes)])
        | none => (setV row col v, [])
      else (setV row col v, [])
    else (row, [])
  | none => (row, [])

/-- The dynamic-image loop of `process_csv` over all selected columns. -/
def resolveCols (fetch : String → Option (List Nat)) (cols : List String)
    (folder : String) (row : Row) : Row × List (String × List Nat) :=
  match cols with
  | [] => (row, [])
  | col :: rest =>
    let (r1, f1) := resolveImageValue fetch folder col row
    let (r2, f2) := resolveCols fetch rest folder r1
    (r2, f1 ++ f2)

/-- External collaborators of `process_csv`: the network, the Jinja template
rendered against a row, copying the template assets into a package folder,
and writing the rendered `index.html`; each fallible step is an `Except`. -/
structure Env where
  fetch : String → Option (List Nat)
  render : Row → Except String String
  copyAssets : String → Except String Unit
  writeHtml : String → String → Except String Unit

/-- One iteration of the `process_csv` loop for the row at 1-based index
`idx`: identifier, folder, image resolution, render / copy / write (each
failure skips the row, i.e. yields `none`), then the archive name
`<package_identifier>.zip`. -/
def processRow (env : Env) (naming : Option String) (cols : List String)
    (idx : Nat) (row : Row) : Option String :=
  let pid := package_identifier naming idx row
  let folder := pathJoin OUTPUT_FOLDER pid
  let resolved := resolveCols env.fetch cols folder row
  match env.render resolved.1 with
  | .error _ => none
  | .ok html =>
    match env.copyAssets folder with
    | .error _ => none
    | .ok _ =>
      match env.writeHtml folder html with
      | .error _ => none
      | .ok _ => some (pid ++ ".zip")

/-- The `process_csv` loop from 1-based index `i`, accumulating the produced
archive names in order. -/
def processFrom (env : Env) (naming : Option String) (cols : List String) :
    Nat → List Row → List String
  | _, [] => []
  | i, row :: rest =>
    match processRow env naming cols i row with
    | some z => z :: processFrom env naming cols (i + 1) rest
    | none => processFrom env naming cols (i + 1) rest

/-- `process_csv(data_rows, template_code, naming_variable,
dynamic_image_columns)`: iterate the rows with `enumerate(start=1)` and
return the list of produced zip paths. -/
def process_csv (env : Env) (naming : Option String) (cols : List String)
    (rows : List Row) : List String :=
  processFrom env naming cols 1 rows

/-- `enumerate(start=i)` on a list. -/
def enumFrom {α : Type} (i : Nat) : List α → List (Nat × α)
  | [] => []
  | x :: xs => (i, x) :: enumFrom (i + 1) xs

/-! ### Regex-based inlining (`inline_base_images`) -/

/-- Python `"".join`-style interleaving used by `str.replace` with an empty
needle: the replacement before, between, and after every character. -/
def interleaveRep (rep : List Char) : List Char → List Char
  | [] => rep
  | c :: cs => rep ++ c :: interleaveRep rep cs

/-- `str.replace` with a non-empty needle: replace each left-most,
non-overlapping occurrence. -/
def listReplaceNE (pat rep : List Char) : List Char → List Char
  | [] => if isPre pat [] then rep else []
  | c :: cs =>
    if h : isPre pat (c :: cs) ∧ pat ≠ [] then
      rep ++ listReplaceNE pat rep ((c :: cs).drop pat.length)
    else
      c :: listReplaceNE pat rep cs
termination_by cs => cs.length
decreasing_by
  · simp only [List.length_drop, List.length_cons]
    have hp : 0 < pat.length := List.length_pos.mpr h.2
    omega
  · simp

/-- Python `s.replace(pat, rep)`. -/
def listReplace (s pat rep : List Char) : List Char :=
  if pat = [] then interleaveRep rep s else listReplaceNE pat rep s

/-- Matching the tail of the regex `src=["'](.*?)["']` after the opening
quote: scan for the nearest closing quote (`"` or `'`), failing on a newline
(`.` does not match newlines) or end of input. Returns the captured value,
the closing quote character, and the rest of the input. -/
def findCloser : List Char → Option (List Char × Char × List Char)
  | [] => none
  | c :: cs =>
    if c == dquote || c == squote then some ([], c, cs)
    else if c == nlChar then none
    else (findCloser cs).map (fun p => (c :: p.1, p.2))

/-- The replacement `replace_src` performs on one regex match: `q`/`q'` are
the opening and closing quotes and `v` the captured `src` value. A value
starting with `data:` is kept; otherwise, when `baseFolder/v` exists in the
file system `fs`, every occurrence of `v` inside the matched text is replaced
by the embedded data URI; a nonexistent file keeps the match unchanged. -/
def replaceSrcMatch (fs : String → Option (List Nat)) (baseFolder : String)
    (q : Char) (v : List Char) (q' : Char) : List Char :=
  let g0 : List Char := 's' :: 'r' :: 'c' :: '=' :: q :: (v ++ [q'])
  let vS : String := String.mk v
  if strStartsWith vS "data:" then g0
  else
    let file_path := pathJoin baseFolder vS
    match fs file_path with
    | some _ => listReplace g0 v (embed_image_as_data_uri fs file_path).data
    | none => g0

/-- `re.sub` with the pattern `src=["'](.*?)["']` and `replace_src`:
left-most, non-overlapping matches, each rewritten by `replaceSrcMatch`. -/
def inlineScan (fs : String → Option (List Nat)) (baseFolder : String) :
    List Char → List Char
  | 's' :: 'r' :: 'c' :: '=' :: q :: rest =>
    if q == dquote || q == squote then
      match hm : findCloser rest with
      | some (v, q', r) =>
        replaceSrcMatch fs baseFolder q v q' ++ inlineScan fs baseFolder r
      | none => 's' :: inlineScan fs baseFolder ('r' :: 'c' :: '=' :: q :: rest)
    else 's' :: inlineScan fs baseFolder ('r' :: 'c' :: '=' :: q :: rest)
  | c :: cs => c :: inlineScan fs baseFolder cs
  | [] => []
termination_by cs => cs.length
decreasing_by
  all_goals simp only [List.length_cons]
  · have key : ∀ (cs v : List Char) (q : Char) (r : List Char),
        findCloser cs = some (v, q, r) → r.length < cs.length := by
      intro cs
      induction cs with
      | nil => intro v q r h; simp [findCloser] at h
      | cons c cs ih =>
        intro v q r h
        simp only [findCloser] at h
        split at h
        · simp only [Option.some.injEq, Prod.mk.injEq] at h
          obtain ⟨-, -, h3⟩ := h
          subst h3
          simp
        · split at h
          · simp at h
          · rw [Option.map_eq_some'] at h
            obtain ⟨⟨v', q', r'⟩, hp, hf⟩ := h
            simp only [Prod.mk.injEq] at hf
            obtain ⟨-, -, h3⟩ := hf
            subst h3
            have := ih v' q' r' hp
            simp only [List.length_cons]
            omega
    have := key _ _ _ _ hm
    omega
  · omega
  · omega
  · omega

/-- The captured `src` values of all matches, in match order (the same scan
as `inlineScan`, collecting `group(1)` instead of rewriting). -/
def srcValues : List Char → List (List Char)
  | 's' :: 'r' :: 'c' :: '=' :: q :: rest =>
    if q == dquote || q == squote then
      match hm : findCloser rest with
      | some (v, _, r) => v :: srcValues r
      | none => srcValues ('r' :: 'c' :: '=' :: q :: rest)
    else srcValues ('r' :: 'c' :: '=' :: q :: rest)
  | _ :: cs => srcValues cs
  | [] => []
termination_by cs => cs.length
decreasing_by
  all_goals simp only [List.length_cons]
  · have key : ∀ (cs v : List Char) (q : Char) (r : List Char),
        findCloser cs = some (v, q, r) → r.length < cs.length := by
      intro cs
      induction cs with
      | nil => intro v q r h; simp [findCloser] at h
      | cons c cs ih =>
        intro v q r h
        simp only [findCloser] at h
        split at h
        · simp only [Option.some.injEq, Prod.mk.injEq] at h
          obtain ⟨-, -, h3⟩ := h
          subst h3
          simp
        · split at h
          · simp at h
          · rw [Option.map_eq_some'] at h
            obtain ⟨⟨v', q', r'⟩, hp, hf⟩ := h
            simp only [Prod.mk.injEq] at hf
            obtain ⟨-, -, h3⟩ := hf
            subst h3
            have := ih v' q' r' hp
            simp only [List.length_cons]
            omega
    have := key _ _ _ _ hm
    omega
  · omega
  · omega
  · omega

/-- `inline_base_images(html_text, base_folder)`. -/
def inline_base_images (fs : String → Option (List Nat))
    (html_text base_folder : String) : String :=
  String.mk (inlineScan fs base_folder html_text.data)

/-! ### Structural page predicates (used to state extraction claims) -/

mutual

/-- Whether a node's subtree contains an element with tag `t`. -/
def nodeHasTag (t : String) : Node → Bool
  | .text _ => false
  | .elem tag _ _ children => tag == t || nodesHaveTag t children

/-- Whether a forest contains an element with tag `t`. -/
def nodesHaveTag (t : String) : List Node → Bool
  | [] => false
  | n :: ns => nodeHasTag t n || nodesHaveTag t ns

end

mutual

/-- Whether a node's subtree contains a `div` element carrying class `c`. -/
def nodeHasDivClass (c : String) : Node → Bool
  | .text _ => false
  | .elem tag classes _ children =>
    (tag == "div" && classes.contains c) || nodesHaveDivClass c children

/-- Whether a forest contains a `div` element carrying class `c`. -/
def nodesHaveDivClass (c : String) : List Node → Bool
  | [] => false
  | n :: ns => nodeHasDivClass c n || nodesHaveDivClass c ns

end

/-! ## Theorems -/

/-! ### Generic helper lemmas about the embedded operations -/

theorem setV_self : ∀ (row : Row) (k v : String), getV row k = some v → setV row k v = row := by
  intro row k v
  induction row with
  | nil => intro h; simp [getV] at h
  | cons p rest ih =>
    intro h
    obtain ⟨k', v'⟩ := p
    by_cases hk : (k' == k) = true
    · simp only [getV, List.find?, hk, Option.map_some'] at h
      obtain rfl : v' = v := by simpa using h
      have : k' = k := by simpa using hk
      subst this
      simp [setV]
    · simp only [getV, List.find?, hk] at h
      have hrest := ih h
      simp only [setV, hk, Bool.false_eq_true, if_false]
      rw [hrest]

/-! ### C1: enrichment on rows missing a URL column -/

/-- C1: the claim says enrichment never raises when the `url1`/`url2` column
is absent; in fact the `else` branch executes `row["url1"] = row["url1"]`,
whose right-hand side raises `KeyError` when the key is absent. On the row
`{"ID": "1"}` (no `url1` column) `process_scrape_csv` aborts with a
`KeyError` instead of adding the six derived keys. -/
theorem claim_C1_keyerror_on_absent_column :
    process_scrape_csv (fun _ => { title := "", img := "", lead := "" })
      [[("ID", "1")]] = .error "KeyError: url1" := rfl

/-! ### C2: extraction never throws and is all-empty on failure -/

/-- C2: `scrap_page` catches every fetch/parse failure (modelled by the
`.error` outcome of the request): it is a total function, returns the
all-empty triple on any failure, and signals a recoverable warning
(`st.error`) there. -/
theorem claim_C2_scrap_page_total_on_failure (msg : String) :
    scrap_page (.error msg) = { title := "", img := "", lead := "" } ∧
      scrap_warns (.error msg) = true :=
  ⟨rfl, rfl⟩

/-! ### C5: lead truncation -/

/-- C5: for every fetch outcome, the lead returned by `scrap_page` is the
plain character truncation (Python `[:150]`, not word-boundary aware) of the
raw lead text, hence always at most 150 characters long. -/
theorem claim_C5_lead_truncated (fetched : Except String (List Node)) :
    ((scrap_page fetched).lead).length ≤ 150 ∧
      (scrap_page fetched).lead = pyTake 150 (pageLeadRaw fetched) := by
  cases fetched with
  | error e =>
    constructor
    · show (("" : String)).length ≤ 150
      decide
    · rfl
  | ok page =>
    constructor
    · show ((leadTextOf page).data.take 150).length ≤ 150
      have h := List.length_take 150 (leadTextOf page).data
      omega
    · rfl

/-! ### C4: package identifier -/

/-- C4: the package identifier is `row[namingColumn]` whenever the naming
column is given (non-empty), present in the row, and its value is non-empty;
in every other case (value empty, key absent, or no naming column) it is the
1-based row index rendered as a string. -/
theorem claim_C4_package_identifier (nv : String) (idx : Nat) (row : Row) (v : String) :
    (nv ≠ "" → getV row nv = some v → v ≠ "" →
      package_identifier (some nv) idx row = v) ∧
    (getV row nv = none → package_identifier (some nv) idx row = toString idx) ∧
    (getV row nv = some "" → package_identifier (some nv) idx row = toString idx) ∧
    package_identifier none idx row = toString idx := by
  refine ⟨?_, ?_, ?_, rfl⟩
  · intro hnv hget hv
    simp [package_identifier, hnv, hget, hv]
  · intro hget
    by_cases hnv : nv = ""
    · simp [package_identifier, hnv]
    · simp [package_identifier, hnv, hget]
  · intro hget
    by_cases hnv : nv = ""
    · simp [package_identifier, hnv]
    · simp [package_identifier, hnv, hget]

/-- C4 witness: for row 1 with naming column `ID` holding `"42"`, the package
identifier is `"42"`, not `"1"`. -/
theorem claim_C4_package_identifier_witness :
    package_identifier (some "ID") 1 [("ID", "42")] = "42" ∧ ("42" : String) ≠ "1" :=
  ⟨(claim_C4_package_identifier "ID" 1 [("ID", "42")] "42").1 (by decide) rfl (by decide),
    by decide⟩

/-! ### C7: data-URI resolution scenario -/

/-- C7: resolving the image column value `data:image/webp;base64,QQ==` for
column `img1` (its name is the fallback file name) writes exactly the file
`img1.webp` with the single byte `0x41` into the package folder and replaces
the row value by the basename `img1.webp`. -/
theorem claim_C7_data_uri_scenario :
    resolveImageValue (fun _ => none) "generated_mails/42" "img1"
      [("img1", "data:image/webp;base64,QQ==")] =
      ([("img1", "img1.webp")], [("img1.webp", [65])]) := rfl

/-! ### C8: opaque values pass through -/

/-- C8: an image-column value that neither starts with `http` nor with
`data:` (the Opaque arm) is left unchanged by the resolution step of
`process_csv`, and no file is created. -/
theorem claim_C8_opaque_passthrough (fetch : String → Option (List Nat))
    (folder col : String) (row : Row) (v : String)
    (hv : getV row col = some v)
    (h1 : strStartsWith v "http" = false)
    (h2 : strStartsWith v "data:" = false) :
    resolveImageValue fetch folder col row = (row, []) := by
  by_cases he : v = ""
  · subst he
    simp [resolveImageValue, hv]
  · simp [resolveImageValue, hv, he, h1, h2, setV_self row col v hv]

/-- C8 witness: the value `hello.png` in column `img1` is passed through
unchanged and no file is created. -/
theorem claim_C8_opaque_passthrough_witness :
    resolveImageValue (fun _ => none) "generated_mails/1" "img1"
      [("img1", "hello.png")] = ([("img1", "hello.png")], []) :=
  claim_C8_opaque_passthrough (fun _ => none) "generated_mails/1" "img1"
    [("img1", "hello.png")] "hello.png" rfl (by decide) (by decide)

/-! ### C3: per-row failure isolation in `process_csv` -/

theorem processFrom_eq_filterMap (env : Env) (naming : Option String)
    (cols : List String) : ∀ (rows : List Row) (i : Nat),
    processFrom env naming cols i rows =
      (enumFrom i rows).filterMap (fun p => processRow env naming cols p.1 p.2) := by
  intro rows
  induction rows with
  | nil => intro i; rfl
  | cons r rest ih =>
    intro i
    simp only [processFrom, enumFrom, List.filterMap_cons]
    cases h : processRow env naming cols i r with
    | none => simpa using ih (i + 1)
    | some z => simp [ih (i + 1)]

/-- C3: `process_csv` returns exactly the archive names of the rows whose
processing succeeds, in row order: each row is processed independently at its
1-based index, a row failing any step (render, asset copy, or document
write — `processRow` returns `none`) is simply absent from the result, and a
failure on one row never affects the rows after it. -/
theorem claim_C3_row_failures_skipped (env : Env) (naming : Option String)
    (cols : List String) (rows : List Row) :
    process_csv env naming cols rows =
      (enumFrom 1 rows).filterMap (fun p => processRow env naming cols p.1 p.2) :=
  processFrom_eq_filterMap env naming cols rows 1

/-! ### C9: extraction rules on a page with no matching elements -/

mutual

theorem findTagNode_none (t : String) (n : Node) (h : nodeHasTag t n = false) :
    findTagNode t n = none := by
  cases n with
  | text s => rfl
  | elem tag classes attrs children =>
    simp only [nodeHasTag, Bool.or_eq_false_iff] at h
    simp only [findTagNode, h.1, Bool.false_eq_true, if_false]
    exact findTagNodes_none t children h.2

theorem findTagNodes_none (t : String) (ns : List Node) (h : nodesHaveTag t ns = false) :
    findTagNodes t ns = none := by
  cases ns with
  | nil => rfl
  | cons n rest =>
    simp only [nodesHaveTag, Bool.or_eq_false_iff] at h
    simp only [findTagNodes, findTagNode_none t n h.1]
    exact findTagNodes_none t rest h.2

end

mutual

theorem findDivClassNode_none (c : String) (n : Node)
    (h : nodeHasDivClass c n = false) : findDivClassNode c n = none := by
  cases n with
  | text s => rfl
  | elem tag classes attrs children =>
    simp only [nodeHasDivClass, Bool.or_eq_false_iff] at h
    simp only [findDivClassNode, h.1, Bool.false_eq_true, if_false]
    exact findDivClassNodes_none c children h.2

theorem findDivClassNodes_none (c : String) (ns : List Node)
    (h : nodesHaveDivClass c ns = false) : findDivClassNodes c ns = none := by
  cases ns with
  | nil => rfl
  | cons n rest =>
    simp only [nodesHaveDivClass, Bool.or_eq_false_iff] at h
    simp only [findDivClassNodes, findDivClassNode_none c n h.1]
    exact findDivClassNodes_none c rest h.2

end

mutual

theorem findWrappedImg_none (n : Node)
    (h : nodeHasDivClass "entry-image" n = false) : findWrappedImg false n = none := by
  cases n with
  | text s => rfl
  | elem tag classes attrs children =>
    simp only [nodeHasDivClass, Bool.or_eq_false_iff] at h
    simp only [findWrappedImg, Bool.false_and, Bool.false_eq_true, if_false, h.1]
    exact findWrappedImgs_none children h.2

theorem findWrappedImgs_none (ns : List Node)
    (h : nodesHaveDivClass "entry-image" ns = false) : findWrappedImgs false ns = none := by
  cases ns with
  | nil => rfl
  | cons n rest =>
    simp only [nodesHaveDivClass, Bool.or_eq_false_iff] at h
    simp only [findWrappedImgs, findWrappedImg_none n h.1]
    exact findWrappedImgs_none rest h.2

end

/-- C9: on a fetched page that contains no `h1` heading, no
`div.entry-image` image wrapper, no `div.entry-lead` lead container and no
`div.article__content` body container, `scrap_page` returns the all-empty
triple, and enriching the row `{ID: "42", url1: "https://example.com/a",
url2: ""}` against such a page yields `title1 = img1 = lead1 = ""` (and the
empty `url2`-derived fields). -/
theorem claim_C9_no_matching_elements (page : List Node)
    (h1 : nodesHaveTag "h1" page = false)
    (h2 : nodesHaveDivClass "entry-image" page = false)
    (h3 : nodesHaveDivClass "entry-lead" page = false)
    (h4 : nodesHaveDivClass "article__content" page = false) :
    scrap_page (.ok page) = { title := "", img := "", lead := "" } ∧
    enrichRow (fun _ => scrap_page (.ok page))
        [("ID", "42"), ("url1", "https://example.com/a"), ("url2", "")] =
      .ok [("ID", "42"), ("url1", "https://example.com/a"), ("url2", ""),
        ("title1", ""), ("img1", ""), ("lead1", ""),
        ("title2", ""), ("img2", ""), ("lead2", "")] := by
  have hmain : scrap_page (.ok page) = { title := "", img := "", lead := "" } := by
    simp only [scrap_page, leadTextOf, findTagNodes_none "h1" page h1,
      findWrappedImgs_none page h2, findDivClassNodes_none "entry-lead" page h3,
      findDivClassNodes_none "article__content" page h4]
    rfl
  refine ⟨hmain, ?_⟩
  simp only [hmain]
  rfl

/-- C9 witness: a concrete page with none of the selector targets. -/
theorem claim_C9_no_matching_elements_witness :
    scrap_page (.ok [Node.elem "p" [] [] [Node.text "hello"]]) =
      { title := "", img := "", lead := "" } ∧
    enrichRow (fun _ => scrap_page (.ok [Node.elem "p" [] [] [Node.text "hello"]]))
        [("ID", "42"), ("url1", "https://example.com/a"), ("url2", "")] =
      .ok [("ID", "42"), ("url1", "https://example.com/a"), ("url2", ""),
        ("title1", ""), ("img1", ""), ("lead1", ""),
        ("title2", ""), ("img2", ""), ("lead2", "")] :=
  claim_C9_no_matching_elements [Node.elem "p" [] [] [Node.text "hello"]]
    (by simp [nodesHaveTag, nodeHasTag])
    (by simp [nodesHaveDivClass, nodeHasDivClass])
    (by simp [nodesHaveDivClass, nodeHasDivClass])
    (by simp [nodesHaveDivClass, nodeHasDivClass])

/-! ### Splitting lemmas for the data-URI parser -/

theorem isPre_self_append (p t : List Char) : isPre p (p ++ t) = true := by
  induction p with
  | nil => rfl
  | cons c cs ih => simp [isPre, ih]

theorem splitFirst_append_sep (sep : Char) (l₁ l₂ : List Char) (h : sep ∉ l₁) :
    splitFirst sep (l₁ ++ sep :: l₂) = some (l₁, l₂) := by
  induction l₁ with
  | nil => simp [splitFirst]
  | cons c cs ih =>
    have hc : ¬c = sep := fun e => h (by simp [e])
    have hcs : sep ∉ cs := fun m => h (List.mem_cons_of_mem _ m)
    simp [splitFirst, hc, ih hcs]

theorem takeUntil_not_mem (sep : Char) (l : List Char) (h : sep ∉ l) :
    takeUntil sep l = l := by
  induction l with
  | nil => rfl
  | cons c cs ih =>
    have hc : ¬c = sep := fun e => h (by simp [e])
    have hcs : sep ∉ cs := fun m => h (List.mem_cons_of_mem _ m)
    simp [takeUntil, hc, ih hcs]

theorem takeUntil_append_sep (sep : Char) (l₁ l₂ : List Char) (h : sep ∉ l₁) :
    takeUntil sep (l₁ ++ sep :: l₂) = l₁ := by
  induction l₁ with
  | nil => simp [takeUntil]
  | cons c cs ih =>
    have hc : ¬c = sep := fun e => h (by simp [e])
    have hcs : sep ∉ cs := fun m => h (List.mem_cons_of_mem _ m)
    simp [takeUntil, hc, ih hcs]

theorem splitLastChar_not_mem (sep : Char) (l : List Char) (h : sep ∉ l) :
    splitLastChar sep l = none := by
  induction l with
  | nil => rfl
  | cons c cs ih =>
    have hc : ¬c = sep := fun e => h (by simp [e])
    have hcs : sep ∉ cs := fun m => h (List.mem_cons_of_mem _ m)
    simp [splitLastChar, hc, ih hcs]

theorem splitLastChar_append_sep (sep : Char) (l₁ l₂ : List Char) (h : sep ∉ l₂) :
    splitLastChar sep (l₁ ++ sep :: l₂) = some (l₁, l₂) := by
  induction l₁ with
  | nil => simp [splitLastChar, splitLastChar_not_mem sep l₂ h]
  | cons c cs ih => simp [splitLastChar, ih]

/-! ### C6: data-URI round trip through the file system -/

theorem declaredMime_shape (m t : String)
    (hsemi : ';' ∉ m.data) (hcomma : ',' ∉ m.data) (hcolon : ':' ∉ m.data) :
    declaredMime ("data:" ++ m ++ ";base64," ++ t) = some m := by
  have hstart : strStartsWith ("data:" ++ m ++ ";base64," ++ t) "data:" = true := rfl
  have hdata : ("data:" ++ m ++ ";base64," ++ t).data =
      ("data:".data ++ m.data ++ ';' :: "base64".data) ++ ',' :: t.data := by
    show "data:".data ++ (m.data ++ ";base64,".data ++ t.data) = _
    simp only [List.append_assoc, List.cons_append, List.nil_append]
  have hmem : ',' ∉ "data:".data ++ m.data ++ ';' :: "base64".data := by
    intro hm
    rcases List.mem_append.mp hm with hm | hm
    · rcases List.mem_append.mp hm with hm | hm
      · revert hm; decide
      · exact hcomma hm
    · revert hm; decide
  have hsplit : splitFirst ',' ("data:" ++ m ++ ";base64," ++ t).data =
      some ("data:".data ++ m.data ++ ';' :: "base64".data, t.data) := by
    rw [hdata]; exact splitFirst_append_sep ',' _ _ hmem
  have hsemiA : ';' ∉ "data:".data ++ m.data := by
    intro hm
    rcases List.mem_append.mp hm with hm | hm
    · revert hm; decide
    · exact hsemi hm
  have htake : takeUntil ';' ("data:".data ++ m.data ++ ';' :: "base64".data) =
      "data:".data ++ m.data :=
    takeUntil_append_sep ';' _ _ hsemiA
  have hidx : splitIdx1 ':' ("data:".data ++ m.data) = some m.data := by
    show splitIdx1 ':' ("data".data ++ ':' :: m.data) = some m.data
    unfold splitIdx1
    rw [splitFirst_append_sep ':' _ _ (by decide), Option.map_some']
    show some (takeUntil ':' m.data) = some m.data
    rw [takeUntil_not_mem ':' m.data hcolon]
  unfold declaredMime
  rw [hstart]
  simp only [Bool.not_true, Bool.false_eq_true, if_false, hsplit, htake, hidx,
    Option.map_some', show String.mk m.data = m from rfl]

theorem save_data_uri_eval (sub payload dest fname : String) (bytes : List Nat)
    (hdec : b64decode payload = some bytes)
    (hslash : '/' ∉ sub.data) (hsemi : ';' ∉ sub.data)
    (hcomma : ',' ∉ sub.data) (hcolon : ':' ∉ sub.data)
    (hfn : fname ≠ "") (hfns : '/' ∉ fname.data) :
    save_data_uri_as_file ("data:image/" ++ sub ++ ";base64," ++ payload) dest fname =
      some (dest ++ "/" ++ (fname ++ "." ++ sub), fname ++ "." ++ sub, bytes) := by
  have hstart : strStartsWith ("data:image/" ++ sub ++ ";base64," ++ payload) "data:" = true := rfl
  have hdata : ("data:image/" ++ sub ++ ";base64," ++ payload).data =
      ("data:image/".data ++ sub.data ++ ';' :: "base64".data) ++ ',' :: payload.data := by
    show "data:image/".data ++ (sub.data ++ ";base64,".data ++ payload.data) = _
    simp only [List.append_assoc, List.cons_append, List.nil_append]
  have hmem : ',' ∉ "data:image/".data ++ sub.data ++ ';' :: "base64".data := by
    intro hm
    rcases List.mem_append.mp hm with hm | hm
    · rcases List.mem_append.mp hm with hm | hm
      · revert hm; decide
      · exact hcomma hm
    · revert hm; decide
  have hsplit : splitFirst ',' ("data:image/" ++ sub ++ ";base64," ++ payload).data =
      some ("data:image/".data ++ sub.data ++ ';' :: "base64".data, payload.data) := by
    rw [hdata]; exact splitFirst_append_sep ',' _ _ hmem
  have hsemiA : ';' ∉ "data:image/".data ++ sub.data := by
    intro hm
    rcases List.mem_append.mp hm with hm | hm
    · revert hm; decide
    · exact hsemi hm
  have htake : takeUntil ';' ("data:image/".data ++ sub.data ++ ';' :: "base64".data) =
      "data:image/".data ++ sub.data :=
    takeUntil_append_sep ';' _ _ hsemiA
  have hcolonB : ':' ∉ "image/".data ++ sub.data := by
    intro hm
    rcases List.mem_append.mp hm with hm | hm
    · revert hm; decide
    · exact hcolon hm
  have hidx : splitIdx1 ':' ("data:image/".data ++ sub.data) =
      some ("image/".data ++ sub.data) := by
    show splitIdx1 ':' ("data".data ++ ':' :: ("image/".data ++ sub.data)) = _
    unfold splitIdx1
    rw [splitFirst_append_sep ':' _ _ (by decide), Option.map_some']
    show some (takeUntil ':' ("image/".data ++ sub.data)) = _
    rw [takeUntil_not_mem ':' _ hcolonB]
  have hext : splitIdx1 '/' ("image/".data ++ sub.data) = some sub.data := by
    show splitIdx1 '/' ("image".data ++ '/' :: sub.data) = some sub.data
    unfold splitIdx1
    rw [splitFirst_append_sep '/' _ _ (by decide), Option.map_some']
    show some (takeUntil '/' sub.data) = some sub.data
    rw [takeUntil_not_mem '/' sub.data hslash]
  obtain ⟨c, cs, hc⟩ : ∃ c cs, fname.data = c :: cs := by
    cases h : fname.data with
    | nil =>
      have h0 : fname = String.mk fname.data := rfl
      rw [h] at h0
      exact absurd h0 hfn
    | cons c cs => exact ⟨c, cs, rfl⟩
  have hcne : c ≠ '/' := fun e => hfns (by rw [hc, e]; exact List.mem_cons_self _ _)
  have hcslash : ('/' == c) = false := beq_eq_false_iff_ne.mpr (fun e => hcne e.symm)
  have hnoslash : strStartsWith (fname ++ "." ++ sub) "/" = false := by
    have hd : (fname ++ "." ++ sub).data = c :: (cs ++ '.' :: sub.data) := by
      show (fname.data ++ ".".data) ++ sub.data = _
      rw [hc]
      simp [List.append_assoc]
    show isPre "/".data (fname ++ "." ++ sub).data = false
    rw [hd]
    show ('/' == c && isPre [] (cs ++ '.' :: sub.data)) = false
    rw [hcslash]
    rfl
  have hjoin : pathJoin dest (fname ++ "." ++ sub) = dest ++ "/" ++ (fname ++ "." ++ sub) := by
    unfold pathJoin
    rw [hnoslash]
    simp
  unfold save_data_uri_as_file
  rw [hstart]
  simp only [Bool.not_true, Bool.false_eq_true, if_false, hsplit, htake, hidx, hext,
    show String.mk payload.data = payload from rfl, hdec,
    show String.mk sub.data = sub from rfl, hjoin]

theorem embed_image_eval (fs : String → Option (List Nat)) (dest fname sub : String)
    (bytes : List Nat)
    (hfs : fs (dest ++ "/" ++ (fname ++ "." ++ sub)) = some bytes)
    (hdot : '.' ∉ sub.data) (hslash : '/' ∉ sub.data)
    (hlower : sub.data.map Char.toLower = sub.data) (hsvg : sub ≠ "svg")
    (hfn : fname ≠ "") (hfns : '/' ∉ fname.data) (hfnd : '.' ∉ fname.data) :
    embed_image_as_data_uri fs (dest ++ "/" ++ (fname ++ "." ++ sub)) =
      "data:" ++ ("image/" ++ sub) ++ ";base64," ++ b64encode bytes := by
  have hnos : '/' ∉ fname.data ++ '.' :: sub.data := by
    intro hm
    rcases List.mem_append.mp hm with hm | hm
    · exact hfns hm
    · rcases List.mem_cons.mp hm with hm | hm
      · exact absurd hm (by decide)
      · exact hslash hm
  have hbase : basenameChars (dest ++ "/" ++ (fname ++ "." ++ sub)).data =
      fname.data ++ '.' :: sub.data := by
    have h1 : (dest ++ "/" ++ (fname ++ "." ++ sub)).data =
        dest.data ++ '/' :: (fname.data ++ '.' :: sub.data) := by
      show (dest.data ++ ['/']) ++ ((fname.data ++ ['.']) ++ sub.data) = _
      simp [List.append_assoc]
    unfold basenameChars
    rw [h1, splitLastChar_append_sep '/' _ _ hnos]
  have hany : (fname.data.any fun ch => ch != '.') = true := by
    obtain ⟨c, cs, hc⟩ : ∃ c cs, fname.data = c :: cs := by
      cases h : fname.data with
      | nil =>
        have h0 : fname = String.mk fname.data := rfl
        rw [h] at h0
        exact absurd h0 hfn
      | cons c cs => exact ⟨c, cs, rfl⟩
    have : ¬c = '.' := by
      intro e
      exact hfnd (by rw [hc, e]; exact List.mem_cons_self _ _)
    rw [hc]
    simp [this]
  have hext : extOf (dest ++ "/" ++ (fname ++ "." ++ sub)) = sub := by
    unfold extOf
    rw [hbase, splitLastChar_append_sep '.' _ _ hdot]
    simp only [hany, if_pos]
  simp only [embed_image_as_data_uri, hfs, hext, lowerChars, hlower,
    show String.mk sub.data = sub from rfl, if_neg hsvg]

/-- C6 (amended): resolving a well-formed inline payload to a file and
re-embedding the file round-trips the declared MIME type, provided the
declared type has the form `image/<subtype>` where the subtype is lowercase,
is not `svg`, and contains no `.`, `/`, `:`, `;` or `,` (the fallback file
name being a normal name without `/` or `.`). Outside this family the types
differ (see the counterexample). -/
theorem claim_C6_roundtrip_mime (sub payload dest fname : String) (bytes : List Nat)
    (hdec : b64decode payload = some bytes)
    (hdot : '.' ∉ sub.data) (hslash : '/' ∉ sub.data)
    (hsemi : ';' ∉ sub.data) (hcomma : ',' ∉ sub.data) (hcolon : ':' ∉ sub.data)
    (hlower : sub.data.map Char.toLower = sub.data) (hsvg : sub ≠ "svg")
    (hfn : fname ≠ "") (hfns : '/' ∉ fname.data) (hfnd : '.' ∉ fname.data) :
    ∃ out, save_then_embed ("data:image/" ++ sub ++ ";base64," ++ payload) dest fname =
        some out ∧
      declaredMime out = declaredMime ("data:image/" ++ sub ++ ";base64," ++ payload) ∧
      declaredMime ("data:image/" ++ sub ++ ";base64," ++ payload) =
        some ("image/" ++ sub) := by
  have hm1 : ';' ∉ ("image/" ++ sub).data := by
    intro hm
    rcases List.mem_append.mp (hm : ';' ∈ "image/".data ++ sub.data) with hm | hm
    · revert hm; decide
    · exact hsemi hm
  have hm2 : ',' ∉ ("image/" ++ sub).data := by
    intro hm
    rcases List.mem_append.mp (hm : ',' ∈ "image/".data ++ sub.data) with hm | hm
    · revert hm; decide
    · exact hcomma hm
  have hm3 : ':' ∉ ("image/" ++ sub).data := by
    intro hm
    rcases List.mem_append.mp (hm : ':' ∈ "image/".data ++ sub.data) with hm | hm
    · revert hm; decide
    · exact hcolon hm
  have horig : declaredMime ("data:image/" ++ sub ++ ";base64," ++ payload) =
      some ("image/" ++ sub) := by
    show declaredMime ("data:" ++ ("image/" ++ sub) ++ ";base64," ++ payload) = _
    exact declaredMime_shape ("image/" ++ sub) payload hm1 hm2 hm3
  refine ⟨"data:" ++ ("image/" ++ sub) ++ ";base64," ++ b64encode bytes, ?_, ?_, horig⟩
  · unfold save_then_embed
    rw [save_data_uri_eval sub payload dest fname bytes hdec hslash hsemi hcomma hcolon
      hfn hfns]
    show some (embed_image_as_data_uri
        (fun p => if p = dest ++ "/" ++ (fname ++ "." ++ sub) then some bytes else none)
        (dest ++ "/" ++ (fname ++ "." ++ sub))) = _
    rw [embed_image_eval _ dest fname sub bytes (by simp) hdot hslash hlower hsvg
      hfn hfns hfnd]
  · rw [declaredMime_shape ("image/" ++ sub) (b64encode bytes) hm1 hm2 hm3, horig]

/-- C6 witness: the `image/webp` payload `QQ==` round-trips to the declared
type `image/webp`. -/
theorem claim_C6_roundtrip_mime_witness :
    ∃ out, save_then_embed "data:image/webp;base64,QQ==" "d" "img1" = some out ∧
      declaredMime out = declaredMime "data:image/webp;base64,QQ==" ∧
      declaredMime "data:image/webp;base64,QQ==" = some "image/webp" :=
  claim_C6_roundtrip_mime "webp" "QQ==" "d" "img1" [65] rfl (by decide) (by decide)
    (by decide) (by decide) (by decide) (by decide) (by decide) (by decide)
    (by decide) (by decide)

/-- C6 counterexample: the claim fails for the well-formed payload
`data:text/plain;base64,QQ==` — the file is re-embedded as `image/plain`,
which differs from the original declared type `text/plain`. -/
theorem claim_C6_roundtrip_mime_counterexample :
    save_then_embed "data:text/plain;base64,QQ==" "d" "img1" =
        some "data:image/plain;base64,QQ==" ∧
      declaredMime "data:text/plain;base64,QQ==" = some "text/plain" ∧
      declaredMime "data:image/plain;base64,QQ==" = some "image/plain" ∧
      ("image/plain" : String) ≠ "text/plain" :=
  ⟨rfl, rfl, rfl, by decide⟩

/-! ### C10: lemmas about the `src` regex scan -/

theorem findCloser_decomp : ∀ (cs v : List Char) (q : Char) (r : List Char),
    findCloser cs = some (v, q, r) → cs = v ++ q :: r := by
  intro cs
  induction cs with
  | nil => intro v q r h; simp [findCloser] at h
  | cons c cs ih =>
    intro v q r h
    simp only [findCloser] at h
    split at h
    · simp only [Option.some.injEq, Prod.mk.injEq] at h
      obtain ⟨h1, h2, h3⟩ := h
      subst h1; subst h2; subst h3
      rfl
    · split at h
      · simp at h
      · rw [Option.map_eq_some'] at h
        obtain ⟨⟨v', q', r'⟩, hp, hf⟩ := h
        simp only [Prod.mk.injEq] at hf
        obtain ⟨h1, h2, h3⟩ := hf
        subst h1; subst h2; subst h3
        simp [ih v' q' r' hp]

theorem findCloser_append (v : List Char) (q' : Char) (tail : List Char)
    (hv : ∀ c ∈ v, (c == dquote) = false ∧ (c == squote) = false ∧ (c == nlChar) = false)
    (hq : (q' == dquote || q' == squote) = true) :
    findCloser (v ++ q' :: tail) = some (v, q', tail) := by
  induction v with
  | nil => simp [findCloser, hq]
  | cons c cs ih =>
    obtain ⟨h1, h2, h3⟩ := hv c (List.mem_cons_self _ _)
    have hcs := fun x hx => hv x (List.mem_cons_of_mem _ hx)
    simp [findCloser, h1, h2, h3, ih hcs]

theorem inlineScan_cons_match (fs : String → Option (List Nat)) (base : String)
    (q : Char) (rest v : List Char) (q' : Char) (r : List Char)
    (hq : (q == dquote || q == squote) = true) (hm : findCloser rest = some (v, q', r)) :
    inlineScan fs base ('s' :: 'r' :: 'c' :: '=' :: q :: rest) =
      replaceSrcMatch fs base q v q' ++ inlineScan fs base r := by
  rw [inlineScan.eq_1, if_pos hq]
  split
  · next v₁ q₁ r₁ heq =>
    rw [hm] at heq
    simp only [Option.some.injEq, Prod.mk.injEq] at heq
    obtain ⟨h1, h2, h3⟩ := heq
    subst h1; subst h2; subst h3
    rfl
  · next heq =>
    rw [hm] at heq
    exact absurd heq (by simp)

theorem inlineScan_cons_none (fs : String → Option (List Nat)) (base : String)
    (q : Char) (rest : List Char)
    (hq : (q == dquote || q == squote) = true) (hm : findCloser rest = none) :
    inlineScan fs base ('s' :: 'r' :: 'c' :: '=' :: q :: rest) =
      's' :: inlineScan fs base ('r' :: 'c' :: '=' :: q :: rest) := by
  rw [inlineScan.eq_1, if_pos hq]
  split
  · next v₁ q₁ r₁ heq =>
    rw [hm] at heq
    exact absurd heq (by simp)
  · next heq => rfl

theorem inlineScan_cons_badq (fs : String → Option (List Nat)) (base : String)
    (q : Char) (rest : List Char)
    (hq : (q == dquote || q == squote) = false) :
    inlineScan fs base ('s' :: 'r' :: 'c' :: '=' :: q :: rest) =
      's' :: inlineScan fs base ('r' :: 'c' :: '=' :: q :: rest) := by
  rw [inlineScan.eq_1, if_neg (by simp [hq])]

theorem srcValues_cons_match (q : Char) (rest v : List Char) (q' : Char) (r : List Char)
    (hq : (q == dquote || q == squote) = true) (hm : findCloser rest = some (v, q', r)) :
    srcValues ('s' :: 'r' :: 'c' :: '=' :: q :: rest) = v :: srcValues r := by
  rw [srcValues.eq_1, if_pos hq]
  split
  · next v₁ q₁ r₁ heq =>
    rw [hm] at heq
    simp only [Option.some.injEq, Prod.mk.injEq] at heq
    obtain ⟨h1, h2, h3⟩ := heq
    subst h1; subst h3
    rfl
  · next heq =>
    rw [hm] at heq
    exact absurd heq (by simp)

theorem srcValues_cons_none (q : Char) (rest : List Char)
    (hq : (q == dquote || q == squote) = true) (hm : findCloser rest = none) :
    srcValues ('s' :: 'r' :: 'c' :: '=' :: q :: rest) =
      srcValues ('r' :: 'c' :: '=' :: q :: rest) := by
  rw [srcValues.eq_1, if_pos hq]
  split
  · next v₁ q₁ r₁ heq =>
    rw [hm] at heq
    exact absurd heq (by simp)
  · next heq => rfl

theorem srcValues_cons_badq (q : Char) (rest : List Char)
    (hq : (q == dquote || q == squote) = false) :
    srcValues ('s' :: 'r' :: 'c' :: '=' :: q :: rest) =
      srcValues ('r' :: 'c' :: '=' :: q :: rest) := by
  rw [srcValues.eq_1, if_neg (by simp [hq])]

theorem replaceSrcMatch_untouched (fs : String → Option (List Nat)) (base : String)
    (q : Char) (v : List Char) (q' : Char)
    (hcond : strStartsWith (String.mk v) "data:" = true ∨
      fs (pathJoin base (String.mk v)) = none) :
    replaceSrcMatch fs base q v q' = 's' :: 'r' :: 'c' :: '=' :: q :: (v ++ [q']) := by
  unfold replaceSrcMatch
  rcases hcond with h | h
  · simp [h]
  · by_cases hd : strStartsWith (String.mk v) "data:" = true
    · simp [hd]
    · simp [hd, h]

theorem replaceSrcMatch_hit (fs : String → Option (List Nat)) (base : String)
    (q : Char) (v : List Char) (q' : Char) (bytes : List Nat)
    (hnd : strStartsWith (String.mk v) "data:" = false)
    (hfile : fs (pathJoin base (String.mk v)) = some bytes) :
    replaceSrcMatch fs base q v q' =
      listReplace ('s' :: 'r' :: 'c' :: '=' :: q :: (v ++ [q'])) v
        (embed_image_as_data_uri fs (pathJoin base (String.mk v))).data := by
  simp only [replaceSrcMatch, hnd, Bool.false_eq_true, if_false, hfile]

theorem isPre_head_false (a b : Char) (as bs : List Char) (h : (a == b) = false) :
    isPre (a :: as) (b :: bs) = false := by
  simp only [isPre, h, Bool.false_and]

theorem listReplaceNE_skip (pat rep : List Char) (c : Char) (cs : List Char)
    (h : isPre pat (c :: cs) = false) :
    listReplaceNE pat rep (c :: cs) = c :: listReplaceNE pat rep cs := by
  rw [listReplaceNE.eq_2, dif_neg]
  intro hcon
  rw [h] at hcon
  exact absurd hcon.1 (by simp)

theorem listReplaceNE_hit (pat rep tail : List Char) (hne : pat ≠ []) :
    listReplaceNE pat rep (pat ++ tail) = rep ++ listReplaceNE pat rep tail := by
  cases pat with
  | nil => exact absurd rfl hne
  | cons p ps =>
    rw [List.cons_append, listReplaceNE.eq_2, dif_pos]
    · have hd : List.drop (p :: ps).length (p :: (ps ++ tail)) = tail := by
        simp only [List.length_cons, List.drop_succ_cons]
        exact List.drop_left ps tail
      rw [hd]
    · refine ⟨?_, hne⟩
      rw [← List.cons_append]
      exact isPre_self_append _ _

theorem listReplaceNE_nil (p : Char) (ps rep : List Char) :
    listReplaceNE (p :: ps) rep [] = [] := by
  rw [listReplaceNE.eq_1, if_neg]
  simp [isPre]

theorem listReplace_srcmatch (v uri : List Char) (q q' : Char)
    (hq : (q == dquote || q == squote) = true)
    (hq' : (q' == dquote || q' == squote) = true)
    (hne : v ≠ [])
    (hchars : ∀ c ∈ v, (c == 's') = false ∧ (c == 'r') = false ∧ (c == 'c') = false ∧
      (c == '=') = false ∧ (c == dquote) = false ∧ (c == squote) = false) :
    listReplace ('s' :: 'r' :: 'c' :: '=' :: q :: (v ++ [q'])) v uri =
      's' :: 'r' :: 'c' :: '=' :: q :: (uri ++ [q']) := by
  obtain ⟨vh, vt, rfl⟩ : ∃ vh vt, v = vh :: vt := by
    cases v with
    | nil => exact absurd rfl hne
    | cons a b => exact ⟨a, b, rfl⟩
  obtain ⟨hs, hr, hc, he, hdq, hsq⟩ := hchars vh (List.mem_cons_self _ _)
  have hvq : (vh == q) = false := by
    have hq2 : (q == dquote) = true ∨ (q == squote) = true := by simpa using hq
    rcases hq2 with h | h
    · have hqd : q = dquote := by simpa using h
      rw [hqd]; exact hdq
    · have hqs : q = squote := by simpa using h
      rw [hqs]; exact hsq
  have hvq' : (vh == q') = false := by
    have hq2 : (q' == dquote) = true ∨ (q' == squote) = true := by simpa using hq'
    rcases hq2 with h | h
    · have hqd : q' = dquote := by simpa using h
      rw [hqd]; exact hdq
    · have hqs : q' = squote := by simpa using h
      rw [hqs]; exact hsq
  unfold listReplace
  rw [if_neg (by simp)]
  rw [listReplaceNE_skip _ _ _ _ (isPre_head_false _ _ _ _ hs)]
  rw [listReplaceNE_skip _ _ _ _ (isPre_head_false _ _ _ _ hr)]
  rw [listReplaceNE_skip _ _ _ _ (isPre_head_false _ _ _ _ hc)]
  rw [listReplaceNE_skip _ _ _ _ (isPre_head_false _ _ _ _ he)]
  rw [listReplaceNE_skip _ _ _ _ (isPre_head_false _ _ _ _ hvq)]
  rw [listReplaceNE_hit _ _ _ (by simp)]
  rw [listReplaceNE_skip _ _ _ _ (isPre_head_false _ _ _ _ hvq')]
  rw [listReplaceNE_nil]

theorem inlineScan_id (fs : String → Option (List Nat)) (base : String) :
    ∀ cs : List Char,
      (∀ v ∈ srcValues cs, strStartsWith (String.mk v) "data:" = true ∨
        fs (pathJoin base (String.mk v)) = none) →
      inlineScan fs base cs = cs := by
  intro cs
  induction cs using srcValues.induct with
  | case1 q rest hq v q' r hm ih =>
    intro hyp
    rw [srcValues_cons_match q rest v q' r hq hm] at hyp
    rw [inlineScan_cons_match fs base q rest v q' r hq hm]
    rw [replaceSrcMatch_untouched fs base q v q' (hyp v (List.mem_cons_self _ _))]
    rw [ih (fun w hw => hyp w (List.mem_cons_of_mem _ hw))]
    rw [findCloser_decomp rest v q' r hm]
    simp [List.append_assoc]
  | case2 q rest hq hm ih =>
    intro hyp
    rw [srcValues_cons_none q rest hq hm] at hyp
    rw [inlineScan_cons_none fs base q rest hq hm, ih hyp]
  | case3 q rest hq ih =>
    intro hyp
    have hq2 : (q == dquote || q == squote) = false := by
      cases h : (q == dquote || q == squote) with
      | false => rfl
      | true => exact absurd h hq
    rw [srcValues_cons_badq q rest hq2] at hyp
    rw [inlineScan_cons_badq fs base q rest hq2, ih hyp]
  | case4 c cs hno ih =>
    intro hyp
    rw [srcValues.eq_2 c cs hno] at hyp
    rw [inlineScan.eq_2 fs base c cs hno, ih hyp]
  | case5 =>
    intro _
    exact inlineScan.eq_3 fs base

/-- C10: `inline_base_images` leaves the rendered markup unchanged whenever
every `src`-attribute value found by its regex either already starts with
`data:` or does not resolve (via the base folder) to an existing file; and a
(well-behaved) `src` value that does resolve to an existing file is
substituted by the data URI embedding of that file's contents. -/
theorem claim_C10_inline_base_images (fs : String → Option (List Nat)) (base : String) :
    (∀ html : String,
      (∀ v ∈ srcValues html.data, strStartsWith (String.mk v) "data:" = true ∨
        fs (pathJoin base (String.mk v)) = none) →
      inline_base_images fs html base = html) ∧
    (∀ (v : String) (bytes : List Nat), v ≠ "" →
      (∀ c ∈ v.data, (c == 's') = false ∧ (c == 'r') = false ∧ (c == 'c') = false ∧
        (c == '=') = false ∧ (c == dquote) = false ∧ (c == squote) = false ∧
        (c == nlChar) = false) →
      strStartsWith v "data:" = false →
      fs (pathJoin base v) = some bytes →
      inline_base_images fs ("<img src=" ++ dquoteS ++ v ++ dquoteS ++ "/>") base =
        "<img src=" ++ dquoteS ++ embed_image_as_data_uri fs (pathJoin base v) ++
          dquoteS ++ "/>") := by
  have hshape : ∀ w : String, ("<img src=" ++ dquoteS ++ w ++ dquoteS ++ "/>").data =
      '<' :: 'i' :: 'm' :: 'g' :: ' ' :: 's' :: 'r' :: 'c' :: '=' :: dquote ::
        (w.data ++ dquote :: '/' :: '>' :: []) := by
    intro w
    show (((("<img src=".data ++ [dquote]) ++ w.data) ++ [dquote]) ++
      ('/' :: '>' :: []) : List Char) = _
    simp only [List.append_assoc, List.cons_append, List.singleton_append, List.nil_append]
  constructor
  · intro html hyp
    unfold inline_base_images
    rw [inlineScan_id fs base html.data hyp]
  · intro v bytes hne hchars hnd hfile
    obtain ⟨vd, rfl⟩ : ∃ l, v = String.mk l := ⟨v.data, rfl⟩
    have hdataeq : (String.mk vd).data = vd := rfl
    rw [hdataeq] at hchars
    have hvd : vd ≠ [] := by
      intro h
      exact hne (by rw [h])
    have hdq : (dquote == dquote || dquote == squote) = true := by decide
    have hfc : findCloser (vd ++ dquote :: '/' :: '>' :: []) =
        some (vd, dquote, '/' :: '>' :: []) :=
      findCloser_append vd dquote ('/' :: '>' :: [])
        (fun c hc => ⟨(hchars c hc).2.2.2.2.1, (hchars c hc).2.2.2.2.2.1,
          (hchars c hc).2.2.2.2.2.2⟩) hdq
    have hskip : ∀ (c : Char), c ≠ 's' →
        ∀ (q : Char) (rest : List Char), c = 's' → rest = rest → False :=
      fun c hc q rest h _ => absurd h hc
    unfold inline_base_images
    rw [hshape (String.mk vd)]
    rw [hdataeq]
    rw [inlineScan.eq_2 fs base '<' _ (fun q rest h _ => absurd h (by decide))]
    rw [inlineScan.eq_2 fs base 'i' _ (fun q rest h _ => absurd h (by decide))]
    rw [inlineScan.eq_2 fs base 'm' _ (fun q rest h _ => absurd h (by decide))]
    rw [inlineScan.eq_2 fs base 'g' _ (fun q rest h _ => absurd h (by decide))]
    rw [inlineScan.eq_2 fs base ' ' _ (fun q rest h _ => absurd h (by decide))]
    rw [inlineScan_cons_match fs base dquote _ vd dquote ('/' :: '>' :: []) hdq hfc]
    rw [replaceSrcMatch_hit fs base dquote vd dquote bytes hnd hfile]
    rw [listReplace_srcmatch vd
      (embed_image_as_data_uri fs (pathJoin base (String.mk vd))).data dquote dquote
      hdq hdq hvd
      (fun c hc => ⟨(hchars c hc).1, (hchars c hc).2.1, (hchars c hc).2.2.1,
        (hchars c hc).2.2.2.1, (hchars c hc).2.2.2.2.1, (hchars c hc).2.2.2.2.2.1⟩)]
    rw [inlineScan.eq_2 fs base '/' _ (fun q rest h _ => absurd h (by decide))]
    rw [inlineScan.eq_2 fs base '>' _ (fun q rest h _ => absurd h (by decide))]
    rw [inlineScan.eq_3 fs base]
    have hfin : ('<' :: 'i' :: 'm' :: 'g' :: ' ' ::
        (('s' :: 'r' :: 'c' :: '=' :: dquote ::
          ((embed_image_as_data_uri fs (pathJoin base (String.mk vd))).data ++ [dquote])) ++
          ['/', '>']) : List Char) =
        ("<img src=" ++ dquoteS ++
          embed_image_as_data_uri fs (pathJoin base (String.mk vd)) ++
          dquoteS ++ "/>").data := by
      rw [hshape]
      simp [List.append_assoc]
    rw [hfin]

/-- C10 witness: with a file system holding only `base/img1.webp`, a
`data:`-prefixed `src` value is left untouched, and the value `img1.webp`
is substituted by the embedding of that file. -/
theorem claim_C10_inline_base_images_witness :
    inline_base_images (fun p => if p = "base/img1.webp" then some [65] else none)
        ("a src=" ++ dquoteS ++ "data:x" ++ dquoteS) "base" =
      "a src=" ++ dquoteS ++ "data:x" ++ dquoteS ∧
    inline_base_images (fun p => if p = "base/img1.webp" then some [65] else none)
        ("<img src=" ++ dquoteS ++ "img1.webp" ++ dquoteS ++ "/>") "base" =
      "<img src=" ++ dquoteS ++
        embed_image_as_data_uri (fun p => if p = "base/img1.webp" then some [65] else none)
          (pathJoin "base" "img1.webp") ++ dquoteS ++ "/>" := by
  constructor
  · apply (claim_C10_inline_base_images _ "base").1
    intro v hv
    have h0 : (("a src=" ++ dquoteS ++ "data:x" ++ dquoteS).data : List Char) =
        'a' :: ' ' :: 's' :: 'r' :: 'c' :: '=' :: dquote ::
          ('d' :: 'a' :: 't' :: 'a' :: ':' :: 'x' :: dquote :: []) := rfl
    rw [h0] at hv
    rw [srcValues.eq_2 _ _ (fun q rest h _ => absurd h (by decide))] at hv
    rw [srcValues.eq_2 _ _ (fun q rest h _ => absurd h (by decide))] at hv
    rw [srcValues_cons_match dquote _ ('d' :: 'a' :: 't' :: 'a' :: ':' :: 'x' :: [])
      dquote [] (by decide) (by decide)] at hv
    rw [srcValues.eq_3] at hv
    simp only [List.mem_singleton] at hv
    subst hv
    left
    decide
  · exact (claim_C10_inline_base_images _ "base").2 "img1.webp" [65] (by decide)
      (by decide) (by decide) rfl

end NewsGen

